import Mathlib

/-!
Verification development for the `go-http-client` library (package
`go_http_client`).  The Go source (client, request, response, config) is
shallowly embedded below: Go strings become `String`/`List Char`, Go's
`url.Values` and `http.Header` (maps from string keys to ordered value
lists) become association lists `Values`, byte slices become `List Nat`,
and the relevant parts of Go's standard library (`net/url.Parse`,
`url.Values.Encode`, `textproto.CanonicalMIMEHeaderKey`) are modelled
faithfully for the ASCII inputs this client manipulates.  Go map range
order is unspecified; every modelled observable (per-key value lists,
the sorted `Encode` output) is independent of that order, and the
association lists below fix one arbitrary order.
-/

set_option maxRecDepth 4096

deriving instance DecidableEq for Except

/-! ## Character helpers (ASCII, as Go operates on bytes) -/

def isLowerChar (c : Char) : Bool := 97 ≤ c.toNat && c.toNat ≤ 122

def isUpperChar (c : Char) : Bool := 65 ≤ c.toNat && c.toNat ≤ 90

def isAlphaChar (c : Char) : Bool := isLowerChar c || isUpperChar c

def isDigitChar (c : Char) : Bool := 48 ≤ c.toNat && c.toNat ≤ 57

def isAlphaNumChar (c : Char) : Bool := isAlphaChar c || isDigitChar c

/-- Uppercase an ASCII letter, as Go's byte arithmetic `c -= 'a' - 'A'` does. -/
def toUpperChar (c : Char) : Char :=
  if isLowerChar c then Char.ofNat (c.toNat - 32) else c

/-- Lowercase an ASCII letter, as Go's byte arithmetic `c += 'a' - 'A'` does. -/
def toLowerChar (c : Char) : Char :=
  if isUpperChar c then Char.ofNat (c.toNat + 32) else c

/-- The whitespace set of Go's `strings.TrimSpace` restricted to ASCII:
`\t \n \v \f \r` and space. -/
def isSpaceChar (c : Char) : Bool := [9, 10, 11, 12, 13, 32].contains c.toNat

/-- Go's `strings.TrimSpace` (ASCII fragment). -/
def trimSpaceStr (s : String) : String :=
  String.mk (((s.data.dropWhile isSpaceChar).reverse.dropWhile isSpaceChar).reverse)

/-- Go's `strings.Trim(s, "/")`: drop leading and trailing `/` runs. -/
def trimSlashes (s : String) : String :=
  String.mk (((s.data.dropWhile (fun c => c = '/')).reverse.dropWhile (fun c => c = '/')).reverse)

/-- Go's `strings.TrimPrefix(s, "/")`: drop one leading slash if present. -/
def trimPfxSlash (s : String) : String :=
  match s.data with
  | '/' :: rest => String.mk rest
  | _ => s

/-- Go's `strings.Cut(l, sep)` for a one-character separator:
`(before, after, found)`. -/
def cutChar : List Char → Char → List Char × List Char × Bool
  | [], _ => ([], [], false)
  | c :: cs, sep =>
    if c = sep then ([], cs, true)
    else
      let r := cutChar cs sep
      (c :: r.1, r.2.1, r.2.2)

/-- Go's `strings.Split(l, sep)` for a one-character separator. -/
def splitChar : List Char → Char → List (List Char)
  | [], _ => [[]]
  | c :: cs, sep =>
    if c = sep then [] :: splitChar cs sep
    else
      match splitChar cs sep with
      | [] => [[c]]
      | h :: t => (c :: h) :: t

/-- Split at the last occurrence of `sep` (Go's `strings.LastIndex` uses):
`none` when `sep` does not occur, otherwise `(before, after)` without `sep`. -/
def lastSplit (l : List Char) (sep : Char) : Option (List Char × List Char) :=
  let r := cutChar l.reverse sep
  if r.2.2 then some (r.2.1.reverse, r.1.reverse) else none

/-- `startsWithL l p`: does `l` start with `p` (Go `strings.HasPrefix`)? -/
def startsWithL : List Char → List Char → Bool
  | _, [] => true
  | [], _ :: _ => false
  | c :: cs, p :: ps => c = p && startsWithL cs ps

/-! ## Multi-valued string maps: Go's `url.Values` and `http.Header`

Both Go types are `map[string][]string`.  We embed them as association
lists with (in the images of the Go operations) pairwise-distinct keys;
`keysNodup` states that map invariant. -/

abbrev Values : Type := List (String × List String)

def keysNodup (vs : Values) : Prop := (vs.map Prod.fst).Nodup

instance (vs : Values) : Decidable (keysNodup vs) := by
  unfold keysNodup; infer_instance

/-- All values stored under key `k`, in order (Go `m[k]`). -/
def Values.getAll (vs : Values) (k : String) : List String :=
  (vs.filter (fun p => p.1 = k)).flatMap (fun p => p.2)

/-- Go's `url.Values.Add` / map `m[k] = append(m[k], v)`: append `v` to the
value list of the first entry for `k`, or add a new entry at the end. -/
def Values.add : Values → String → String → Values
  | [], k, v => [(k, [v])]
  | p :: ps, k, v =>
    if p.1 = k then (p.1, p.2 ++ [v]) :: ps
    else p :: Values.add ps k v

/-- Flatten a multi-map to its `(key, value)` pairs in stored order. -/
def Values.pairs (vs : Values) : List (String × String) :=
  vs.flatMap (fun p => p.2.map (fun v => (p.1, v)))

/-- Fold `Values.add` over the pairs of `src`, with key transform `f`
(`f = id` for query merging, `f = canonicalMIMEHeaderKey` for
`http.Header.Add`).  This is the nested `for k, v := range src { for _,
each := range v { dst.Add(k, each) } }` loop; per-key results do not
depend on Go's map range order. -/
def Values.addPairs (f : String → String) (dst : Values) (src : Values) : Values :=
  (Values.pairs src).foldl (fun a kv => Values.add a (f kv.1) kv.2) dst

/-- Additive merge of `src` into `dst` (query merge: keys unchanged). -/
def Values.mergeAdd (dst src : Values) : Values :=
  Values.addPairs (fun k => k) dst src

/-! ## Query encoding: Go's `url.Values.Encode` -/

/-- Unescaped characters of Go's `url.QueryEscape`: alphanumerics and
`- _ . ~`. -/
def queryUnescapedChar (c : Char) : Bool :=
  isAlphaNumChar c || [45, 46, 95, 126].contains c.toNat

def hexDigitUpper (n : Nat) : Char :=
  if n < 10 then Char.ofNat (48 + n) else Char.ofNat (55 + n)

/-- Go `url.QueryEscape` on one ASCII byte. -/
def queryEscapeChar (c : Char) : List Char :=
  if queryUnescapedChar c then [c]
  else if c = ' ' then ['+']
  else ['%', hexDigitUpper (c.toNat / 16), hexDigitUpper (c.toNat % 16)]

def queryEscape (s : String) : String :=
  String.mk (s.data.flatMap queryEscapeChar)

/-- Insertion into a key-sorted association list (stable). -/
def insertSorted (p : String × List String) : Values → Values
  | [] => [p]
  | q :: qs => if p.1 ≤ q.1 then p :: q :: qs else q :: insertSorted p qs

/-- Sort entries by key, as `Encode` sorts the map keys. -/
def sortByKey (vs : Values) : Values := vs.foldr insertSorted []

/-- The `k=v` pieces of `url.Values.Encode`, key-sorted, values in order. -/
def Values.encodePieces (vs : Values) : List String :=
  (sortByKey vs).flatMap (fun p => p.2.map (fun v => queryEscape p.1 ++ "=" ++ queryEscape v))

/-- Go's `url.Values.Encode`. -/
def Values.encode (vs : Values) : String :=
  String.intercalate "&" (Values.encodePieces vs)

/-! ## Header key canonicalization: `textproto.CanonicalMIMEHeaderKey` -/

/-- Go `textproto.validHeaderFieldByte`: the HTTP token characters. -/
def validHeaderFieldChar (c : Char) : Bool :=
  isAlphaNumChar c ||
  [33, 35, 36, 37, 38, 39, 42, 43, 45, 46, 94, 95, 96, 124, 126].contains c.toNat

/-- The case-mapping loop of `canonicalMIMEHeaderKey`: uppercase the first
letter and every letter following a dash, lowercase the rest. -/
def canonChars : Bool → List Char → List Char
  | _, [] => []
  | upper, c :: cs =>
    let c' := if upper then toUpperChar c else toLowerChar c
    c' :: canonChars (c' = '-') cs

/-- Go `textproto.CanonicalMIMEHeaderKey`: keys containing a byte that is
not a valid header-field byte are returned unchanged. -/
def canonicalMIMEHeaderKey (s : String) : String :=
  if s.data.all validHeaderFieldChar then String.mk (canonChars true s.data) else s

/-- Go `http.Header.Add`: `textproto.MIMEHeader.Add` canonicalizes the key. -/
def headerAdd (h : Values) (k v : String) : Values :=
  Values.add h (canonicalMIMEHeaderKey k) v

/-- Additive merge into a header with canonicalized keys (the
`headers.Add(k, each)` loops in `Submit`). -/
def headerMergeAdd (dst src : Values) : Values :=
  Values.addPairs canonicalMIMEHeaderKey dst src

/-! ## Go's `net/url.Parse`, modelled for the ASCII inputs of this client

The embedded `urlParse` follows `net/url`'s `Parse`/`parse` (with
`viaRequest = false`): control-byte check, fragment cut, `getScheme`,
the force-query special case, query cut, the opaque and
colon-in-first-segment rules, `//`-authority splitting with
`parseAuthority`/`parseHost` (userinfo split at the last `@`, optional
port validation at the last `:`, host byte validation and `%`-escape
decoding), and `%`-escape decoding of the path.  IPv6 `[...]` zone
identifiers and non-ASCII bytes are outside the inputs this development
evaluates and are modelled to the same accept/reject outcome Go gives on
the ASCII fragment. -/

structure GoURL where
  scheme : String
  opq : String
  host : String
  path : String
  rawQuery : String
deriving DecidableEq

def containsCTL (l : List Char) : Bool := l.any (fun c => c.toNat < 32 || c.toNat = 127)

/-- The scanning loop of `net/url.getScheme`.  Result: an error for a
leading `:`, `some (scheme, rest)` when a scheme is found, `none` when
the URL has no scheme (the whole input is the rest). -/
def schemeLoop (acc : List Char) : List Char → Except String (Option (List Char × List Char))
  | [] => .ok none
  | c :: cs =>
    if isAlphaChar c then schemeLoop (acc ++ [c]) cs
    else if isDigitChar c || c = '+' || c = '-' || c = '.' then
      if acc = [] then .ok none else schemeLoop (acc ++ [c]) cs
    else if c = ':' then
      if acc = [] then .error "missing protocol scheme" else .ok (some (acc, cs))
    else .ok none

def getScheme (l : List Char) : Except String (List Char × List Char) :=
  match schemeLoop [] l with
  | .error e => .error e
  | .ok none => .ok ([], l)
  | .ok (some (sch, rest)) => .ok (sch, rest)

/-- Go `net/url.validOptionalPort`: empty, or `:` followed by digits only. -/
def validOptionalPort (l : List Char) : Bool :=
  match l with
  | [] => true
  | c :: rest => c = ':' && rest.all isDigitChar

/-- The host bytes Go's `shouldEscape(c, encodeHost)` leaves unescaped
(valid raw host bytes): alphanumerics, the `encodeHost` sub-delimiters
`! $ & ' ( ) * + , ; = : [ ] < > "`, the unreserved marks `- _ . ~`, and
any non-ASCII byte. -/
def validHostChar (c : Char) : Bool :=
  c.toNat ≥ 128 || isAlphaNumChar c ||
  [33, 36, 38, 39, 40, 41, 42, 43, 44, 59, 61, 58, 91, 93, 60, 62, 34, 45, 95, 46, 126].contains c.toNat

def hexVal (c : Char) : Option Nat :=
  if isDigitChar c then some (c.toNat - 48)
  else if 97 ≤ c.toNat && c.toNat ≤ 102 then some (c.toNat - 87)
  else if 65 ≤ c.toNat && c.toNat ≤ 70 then some (c.toNat - 55)
  else none

/-- Go `unescape(s, encodeHost)`: reject invalid raw host bytes, decode
`%XX` escapes and reject escapes of bytes that would need escaping. -/
def unescapeHost : List Char → Except String (List Char)
  | [] => .ok []
  | c :: rest =>
    if c = '%' then
      match rest with
      | a :: b :: rest2 =>
        match hexVal a, hexVal b with
        | some x, some y =>
          let v := Char.ofNat (16 * x + y)
          if !validHostChar v then .error "invalid URL escape in host"
          else (unescapeHost rest2).map (fun t => v :: t)
        | _, _ => .error "invalid URL escape"
      | _ => .error "invalid URL escape"
    else if !validHostChar c then .error "invalid character in host name"
    else (unescapeHost rest).map (fun t => c :: t)

/-- Go `unescape(s, encodePath)`: decode `%XX` escapes (raw bytes are not
validated in path mode). -/
def unescapePath : List Char → Except String (List Char)
  | [] => .ok []
  | c :: rest =>
    if c = '%' then
      match rest with
      | a :: b :: rest2 =>
        match hexVal a, hexVal b with
        | some x, some y => (unescapePath rest2).map (fun t => Char.ofNat (16 * x + y) :: t)
        | _, _ => .error "invalid URL escape"
      | _ => .error "invalid URL escape"
    else (unescapePath rest).map (fun t => c :: t)

/-- Go `net/url.parseHost` (ASCII fragment; bracketed IPv6 hosts keep the
port check but skip zone handling, which no input here exercises). -/
def parseHost (l : List Char) : Except String String :=
  if startsWithL l ['['] then
    match lastSplit l ']' with
    | none => .error "missing ']' in host"
    | some (_, afterBracket) =>
      if validOptionalPort afterBracket then (unescapeHost l).map String.mk
      else .error "invalid port after host"
  else
    match lastSplit l ':' with
    | none => (unescapeHost l).map String.mk
    | some (_, afterColon) =>
      if validOptionalPort (':' :: afterColon) then (unescapeHost l).map String.mk
      else .error "invalid port after host"

/-- Go `net/url.validUserinfo` characters. -/
def validUserinfoChar (c : Char) : Bool :=
  isAlphaNumChar c ||
  [45, 46, 95, 58, 126, 33, 36, 38, 39, 40, 41, 42, 43, 44, 59, 61, 37, 64].contains c.toNat

/-- Go `net/url.parseAuthority`: split userinfo at the last `@`, parse the
host, then validate the userinfo. -/
def parseAuthority (l : List Char) : Except String String :=
  match lastSplit l '@' with
  | none => parseHost l
  | some (userinfo, hostPart) =>
    match parseHost hostPart with
    | .error e => .error e
    | .ok h => if userinfo.all validUserinfoChar then .ok h else .error "net/url: invalid userinfo"

/-- The force-query condition of `net/url.parse`: `rest` ends in `?` and
contains no other `?`. -/
def forceQuerySplit (rest : List Char) : Bool :=
  rest.reverse.head? = some '?' && !(rest.reverse.tail.contains '?')

/-- Authority/path split: `authority, rest = rest[2:]` cut at the first
`/` (which stays with the path). -/
def splitAuthority (l : List Char) : List Char × List Char :=
  let r := cutChar l '/'
  if r.2.2 then (r.1, '/' :: r.2.1) else (l, [])

/-- `net/url.parse` (viaRequest = false) after the fragment has been cut. -/
def urlParseList (l : List Char) : Except String GoURL :=
  if containsCTL l then .error "net/url: invalid control character in URL" else
  match getScheme l with
  | .error e => .error e
  | .ok (schemeRaw, rest) =>
    let scheme := String.mk (schemeRaw.map toLowerChar)
    let qsplit : List Char × List Char :=
      if forceQuerySplit rest then (rest.reverse.tail.reverse, [])
      else
        let c := cutChar rest '?'
        (c.1, c.2.1)
    let rest2 := qsplit.1
    let rawQuery := String.mk qsplit.2
    if !startsWithL rest2 ['/'] && scheme ≠ "" then
      .ok { scheme := scheme, opq := String.mk rest2, host := "", path := "", rawQuery := rawQuery }
    else if !startsWithL rest2 ['/'] && (cutChar rest2 '/').1.contains ':' then
      .error "first path segment in URL cannot contain colon"
    else if (scheme ≠ "" || !startsWithL rest2 ['/', '/', '/']) && startsWithL rest2 ['/', '/'] then
      let a := splitAuthority (rest2.drop 2)
      match parseAuthority a.1 with
      | .error e => .error e
      | .ok host =>
        match unescapePath a.2 with
        | .error e => .error e
        | .ok p => .ok { scheme := scheme, opq := "", host := host, path := String.mk p, rawQuery := rawQuery }
    else
      match unescapePath rest2 with
      | .error e => .error e
      | .ok p => .ok { scheme := scheme, opq := "", host := "", path := String.mk p, rawQuery := rawQuery }

/-- Go `net/url.Parse`: cut the fragment, then parse the rest. -/
def urlParse (s : String) : Except String GoURL :=
  urlParseList (cutChar s.data '#').1

/-- Go `url.QueryUnescape` as used by `ParseQuery` (`+` becomes space). -/
def queryUnescape : List Char → Except String (List Char)
  | [] => .ok []
  | c :: rest =>
    if c = '%' then
      match rest with
      | a :: b :: rest2 =>
        match hexVal a, hexVal b with
        | some x, some y => (queryUnescape rest2).map (fun t => Char.ofNat (16 * x + y) :: t)
        | _, _ => .error "invalid URL escape"
      | _ => .error "invalid URL escape"
    else if c = '+' then (queryUnescape rest).map (fun t => ' ' :: t)
    else (queryUnescape rest).map (fun t => c :: t)

/-- Go `net/url.ParseQuery` as consumed by `URL.Query()` (which discards
the error and keeps the successfully parsed pairs): split on `&`, skip
empty segments, segments containing `;`, and segments whose key or value
fails to unescape; cut each segment at the first `=`. -/
def parseQuery (l : List Char) : Values :=
  (splitChar l '&').foldl
    (fun acc seg =>
      if seg = [] then acc
      else if seg.contains ';' then acc
      else
        let c := cutChar seg '='
        match queryUnescape c.1, queryUnescape c.2.1 with
        | .ok k, .ok v => Values.add acc (String.mk k) (String.mk v)
        | _, _ => acc)
    []

/-- Go `URL.Query()`. -/
def GoURL.query (u : GoURL) : Values := parseQuery u.rawQuery.data

/-! ## The client profile (`httpClient` in client.go)

The transport handle is an external collaborator and carries no logic;
it is omitted from the embedding.  `timeout` is kept as a plain integer
of nanoseconds (`time.Duration`). -/

structure httpClient where
  host : String := ""
  urlPfx : String := ""
  maxRedirects : Int := 0
  timeout : Int := 0
  userAgent : String := ""
  defaultHeaders : Values := []
  defaultQueries : Values := []
deriving DecidableEq

/-- `func (c *httpClient) Host(host string)`: stores the trimmed host. -/
def httpClient.Host (c : httpClient) (host : String) : httpClient :=
  { c with host := trimSpaceStr host }

/-- `func (c *httpClient) GetHost() string`: parse the stored host; on
error return `""`; otherwise emit `scheme://host`. -/
def httpClient.GetHost (c : httpClient) : String :=
  match urlParse c.host with
  | .error _ => ""
  | .ok u => u.scheme ++ "://" ++ u.host

/-- `func (c *httpClient) GetUrlPrefix() string` (the url-prefix getter):
empty stays empty, otherwise surrounding slashes are trimmed and one
leading slash is prepended. -/
def httpClient.GetUrlPfx (c : httpClient) : String :=
  if c.urlPfx = "" then "" else "/" ++ trimSlashes c.urlPfx

/-! ## The request composer (`httpRequest` in client.go)

The cancellation token (`ctx`) carries no composition logic and is
omitted.  `body` is a byte slice. -/

structure httpRequest where
  userAgent : Option String := none
  maxRedirects : Option Int := none
  timeout : Option Int := none
  headers : Values := []
  queries : Values := []
  skipDefaultQueries : Bool := false
  body : List Nat := []
  skipDefaultHeaders : Bool := false
  method : String := ""
  path : String := ""
deriving DecidableEq

/-- `func (r *httpRequest) Path(p string)`. -/
def httpRequest.Path (r : httpRequest) (p : String) : httpRequest :=
  { r with path := trimSpaceStr p }

/-- `func (r *httpRequest) AddHeader(key, value string)`: `http.Header.Add`
canonicalizes the key. -/
def httpRequest.AddHeader (r : httpRequest) (k v : String) : httpRequest :=
  { r with headers := headerAdd r.headers k v }

/-- `NewHttpRequest`. -/
def NewHttpRequest : httpRequest := {}

/-! ## The submission engine (`Submit` in client.go)

`Submit` is embedded as a pure function from the client profile and the
request to either an error or the outgoing transport call paired with
the post-submission state of the request.  The second component records
the mutations Go performs on the composer during `Submit`: `queries :=
r.queries` and `headers := r.headers` alias the composer's maps, so the
`queries.Add`/`headers.Add` merge loops and the `r.AddHeader("User-Agent",
...)` call write through to the composer. -/

structure OutCall where
  method : String
  url : String
  headers : Values
deriving DecidableEq

/-- Lines 506–526 of `Submit`: path trimming and parsing, host override
for absolute-URL paths, merge of the reference's query parameters, and
re-prefixing of the path. Returns `(host, path, queries)`. -/
def submitResolve (c : httpClient) (r : httpRequest) : Except String (String × String × Values) :=
  if r.path = "" then .ok (c.GetHost, "", r.queries)
  else
    match urlParse (trimPfxSlash r.path) with
    | .error e => .error e
    | .ok u =>
      let host := if u.host ≠ "" then u.scheme ++ "://" ++ u.host else c.GetHost
      let queries := Values.mergeAdd r.queries u.query
      .ok (host, "/" ++ u.path, queries)

/-- Lines 528–534 of `Submit`: the default-query merge. Returns the final
working query set. -/
def submitQueries (c : httpClient) (r : httpRequest) : Except String Values :=
  (submitResolve c r).map
    (fun t => if r.skipDefaultQueries then t.2.2 else Values.mergeAdd t.2.2 c.defaultQueries)

/-- Lines 552–556 of `Submit`: the user-agent resolution, which mutates
the composer's header map through `r.AddHeader`. -/
def uaApplied (c : httpClient) (r : httpRequest) : httpRequest :=
  match r.userAgent with
  | some ua => r.AddHeader "User-Agent" ua
  | none => if c.userAgent ≠ "" then r.AddHeader "User-Agent" c.userAgent else r

/-- Lines 558–565 of `Submit`: the default-header merge (`headers` aliases
the composer's map). -/
def mergedHeaders (c : httpClient) (r1 : httpRequest) : Values :=
  if r1.skipDefaultHeaders then r1.headers else headerMergeAdd r1.headers c.defaultHeaders

/-- Lines 567–571 of `Submit`: copying the working header set into the
outgoing `http.Request` via `req.Header.Add` (which canonicalizes keys). -/
def applyHeaders (h : Values) : Values :=
  Values.addPairs canonicalMIMEHeaderKey [] h

/-- The outgoing headers of the call built by `Submit`. -/
def outgoingHeaders (c : httpClient) (r : httpRequest) : Values :=
  applyHeaders (mergedHeaders c (uaApplied c r))

/-- `func (r *httpRequest) Submit()`, up to the transport execution (the
network call itself and the response draining are external).  Returns
the outgoing call and the request state after `Submit`'s mutations. -/
def Submit (c : httpClient) (r : httpRequest) : Except String (OutCall × httpRequest) :=
  match submitResolve c r with
  | .error e => .error e
  | .ok (host, path, q1) =>
    let queries := if r.skipDefaultQueries then q1 else Values.mergeAdd q1 c.defaultQueries
    let qp := if queries.length > 0 then "?" ++ Values.encode queries else ""
    let url := host ++ c.GetUrlPfx ++ path ++ qp
    let r1 := uaApplied c { r with queries := queries }
    let headers := mergedHeaders c r1
    .ok ({ method := r.method, url := url, headers := applyHeaders headers },
         { r1 with headers := headers })

/-- The final URL string of a submission. -/
def submitUrl (c : httpClient) (r : httpRequest) : Except String String :=
  (Submit c r).map (fun p => p.1.url)

/-! ## Redirect policy (the `CheckRedirect` closure, lines 578–595)

The effective budget seeds a fresh local variable captured by the
closure; on each redirect response the closure fails the submission when
the counter is `≤ 0` and otherwise decrements it.  `redirectRun budget
hops` runs the closure over a response chain containing `hops` redirect
responses (followed by a final non-redirect response) and returns the
number of hops taken and the error, if any. -/

inductive SubmitError where
  | tooManyRedirects
deriving DecidableEq

/-- Line 578–581: per-request override if present, else profile default. -/
def effectiveMaxRedirects (c : httpClient) (r : httpRequest) : Int :=
  match r.maxRedirects with
  | some m => m
  | none => c.maxRedirects

def redirectRun (budget : Int) : Nat → Nat × Option SubmitError
  | 0 => (0, none)
  | n + 1 =>
    if budget ≤ 0 then (0, some .tooManyRedirects)
    else
      let p := redirectRun (budget - 1) n
      (p.1 + 1, p.2)

/-! ## The response envelope (`httpResponse` in client.go)

`newHttpResponse` lowercases every header name; JSON decoding
(`json.Unmarshal`) is an external collaborator and is passed in as a
function where needed. -/

structure httpResponse where
  statusCode : Int := 0
  body : List Nat := []
  headers : Values := []
deriving DecidableEq

def lowerStr (s : String) : String := String.mk (s.data.map toLowerChar)

/-- Map-style set: replace the first entry for `k`, else append. -/
def Values.set : Values → String → List String → Values
  | [], k, vs => [(k, vs)]
  | p :: ps, k, vs =>
    if p.1 = k then (k, vs) :: ps
    else p :: Values.set ps k vs

/-- `newHttpResponse`: copy the status code and rewrite every header name
to lowercase (body draining is external; the drained bytes are given). -/
def newHttpResponse (statusCode : Int) (body : List Nat) (rawHeaders : Values) : httpResponse :=
  { statusCode := statusCode, body := body,
    headers := rawHeaders.foldl (fun acc p => Values.set acc (lowerStr p.1) p.2) [] }

def httpResponse.IsSuccess (r : httpResponse) : Bool :=
  r.statusCode ≥ 200 && r.statusCode < 300

def httpResponse.IsServerError (r : httpResponse) : Bool :=
  r.statusCode ≥ 500

def httpResponse.IsClientError (r : httpResponse) : Bool :=
  r.statusCode ≥ 400 && r.statusCode < 500

/-- `GetHeader`: case-insensitive lookup returning the first value.  (In
Go the first-of-list access is on a non-empty slice whenever the key is
present; an empty stored list is treated as absent here.) -/
def httpResponse.GetHeader (r : httpResponse) (k : String) : Option String :=
  match (r.headers.filter (fun p => p.1 = lowerStr k)).head? with
  | none => none
  | some p => p.2.head?

def httpResponse.HasHeader (r : httpResponse) (k : String) : Bool :=
  (r.GetHeader k).isSome

/-- `IsJsonResponse`: true only when the `content-type` lookup yields the
exact literal `application/json`. -/
def httpResponse.IsJsonResponse (r : httpResponse) : Bool :=
  match r.GetHeader "content-type" with
  | none => false
  | some v => v = "application/json"

/-- The distinct failure conditions of `ParseJson`/`ParseAs` (each is a
distinct `errors.New` message in the source). -/
inductive RespError where
  | notJson
  | nilDest
  | emptyBody
  | notPointer
  | notUnmarshaler
  | decodeFail (msg : String)
deriving DecidableEq

/-- The Go error message of each condition. -/
def RespError.message : RespError → String
  | .notJson => "not a json response"
  | .nilDest => "dest is nil"
  | .emptyBody => "body is empty"
  | .notPointer => "dest is not a pointer"
  | .notUnmarshaler => "dest does not implement json.Unmarshaler"
  | .decodeFail m => m

/-- `ParseJson`: fail with `NotJson` unless the content-type check passes,
then decode (the decoder models `json.Unmarshal`). -/
def httpResponse.ParseJson {α : Type} (r : httpResponse)
    (decode : List Nat → Except String α) : Except RespError α :=
  if !r.IsJsonResponse then .error .notJson
  else
    match decode r.body with
    | .error e => .error (.decodeFail e)
    | .ok v => .ok v

/-- The reflective shape of a `ParseAs` destination: nil-ness, pointer
kind, and whether it implements `json.Unmarshaler`. -/
structure Dest where
  isNil : Bool
  isPtr : Bool
  isUnmarshaler : Bool
deriving DecidableEq

/-- `ParseAs`, with its check order: nil target, empty body, non-pointer
target, non-JSON content type, missing decode capability, then decode. -/
def httpResponse.ParseAs {α : Type} (r : httpResponse) (dest : Dest)
    (decode : List Nat → Except String α) : Except RespError α :=
  if dest.isNil then .error .nilDest
  else if r.body.length = 0 then .error .emptyBody
  else if !dest.isPtr then .error .notPointer
  else if !r.IsJsonResponse then .error .notJson
  else if !dest.isUnmarshaler then .error .notUnmarshaler
  else
    match decode r.body with
    | .error e => .error (.decodeFail e)
    | .ok v => .ok v

/-- A conservative well-formed-host character class used to state the
amended idempotence claim: ASCII letters, digits, `-` and `.` (the
shape of ordinary DNS host names). -/
def plainHostChar (c : Char) : Bool :=
  isAlphaNumChar c || c.toNat == 45 || c.toNat == 46

/-! ## Concrete profiles, requests and references used by witnesses -/

def cW1 : httpClient :=
  { host := "https://api.example.com", urlPfx := "v1", defaultQueries := [("x", ["0"])] }

def rW1 : httpRequest := { method := "GET", path := "https://other.example/resource?x=1" }

def uW1 : GoURL :=
  { scheme := "https", opq := "", host := "other.example", path := "/resource", rawQuery := "x=1" }

def cW3 : httpClient := { host := "https://api.example.com" }

def rW3 : httpRequest := { method := "GET", path := "https://other.example/resource?x=1" }

def uW3 : GoURL :=
  { scheme := "https", opq := "", host := "other.example", path := "/resource", rawQuery := "x=1" }

def cW4 : httpClient := { host := "https://api.example.com", defaultQueries := [("a", ["2"])] }

def rW4 : httpRequest := { method := "GET", path := "p?a=1" }

def tW4 : String × String × Values := ("https://api.example.com", "/p", [("a", ["1"])])

def cW9 : httpClient :=
  { host := "https://api.example.com",
    defaultHeaders := [("x-key", ["secret"]), ("X-Two", ["a", "b"])] }

def rW9 : httpRequest :=
  { method := "GET", path := "/u", headers := [("X-Mine", ["1"])] }

/-! ## Lemmas about the multi-map operations -/

theorem getAll_nil (k : String) : Values.getAll [] k = [] := rfl

theorem getAll_cons (p : String × List String) (ps : Values) (k : String) :
    Values.getAll (p :: ps) k =
      (if p.1 = k then p.2 else []) ++ Values.getAll ps k := by
  by_cases h : p.1 = k <;> simp [Values.getAll, List.filter_cons, h]

theorem getAll_eq_nil_of_not_mem_keys {vs : Values} {k : String}
    (h : k ∉ vs.map Prod.fst) : Values.getAll vs k = [] := by
  induction vs with
  | nil => rfl
  | cons p ps ih =>
    simp only [List.map_cons, List.mem_cons] at h
    push_neg at h
    rw [getAll_cons, if_neg (fun hh => h.1 hh.symm), ih h.2, List.nil_append]

theorem getAll_add {vs : Values} (h : keysNodup vs) (k v k' : String) :
    Values.getAll (Values.add vs k v) k' =
      Values.getAll vs k' ++ (if k' = k then [v] else []) := by
  induction vs with
  | nil =>
    by_cases hk : k' = k
    · subst hk
      simp [Values.add, getAll_cons, getAll_nil]
    · have hk2 : ¬(k = k') := fun hh => hk hh.symm
      simp [Values.add, getAll_cons, getAll_nil, hk, hk2]
  | cons p ps ih =>
    unfold keysNodup at h
    simp only [List.map_cons, List.nodup_cons] at h
    by_cases hp : p.1 = k
    · subst hp
      simp only [Values.add, if_pos rfl]
      by_cases hk : k' = p.1
      · subst hk
        simp [getAll_cons, getAll_eq_nil_of_not_mem_keys h.1]
      · have hk2 : ¬(p.1 = k') := fun hh => hk hh.symm
        simp [getAll_cons, hk, hk2]
    · simp only [Values.add, if_neg hp, getAll_cons, ih h.2]
      simp [List.append_assoc]

theorem add_map_fst (vs : Values) (k v : String) :
    (Values.add vs k v).map Prod.fst =
      if k ∈ vs.map Prod.fst then vs.map Prod.fst else vs.map Prod.fst ++ [k] := by
  induction vs with
  | nil => simp [Values.add]
  | cons p ps ih =>
    by_cases hp : p.1 = k
    · simp only [Values.add, if_pos hp, List.map_cons]
      rw [if_pos]
      simp [hp, List.mem_cons]
    · simp only [Values.add, if_neg hp, List.map_cons, ih]
      by_cases hk : k ∈ ps.map Prod.fst
      · rw [if_pos hk, if_pos]
        simp [List.mem_cons, hk]
      · rw [if_neg hk, if_neg]
        · simp
        · simp only [List.mem_cons]
          push_neg
          exact ⟨fun hh => hp hh.symm, hk⟩

theorem keysNodup_add {vs : Values} (h : keysNodup vs) (k v : String) :
    keysNodup (Values.add vs k v) := by
  unfold keysNodup at h ⊢
  rw [add_map_fst]
  by_cases hk : k ∈ vs.map Prod.fst
  · rwa [if_pos hk]
  · rw [if_neg hk]
    simp only [List.nodup_append, List.nodup_cons, List.not_mem_nil, List.nodup_nil]
    refine ⟨h, by simp, ?_⟩
    intro a ha hb
    simp only [List.mem_singleton] at hb
    exact hk (hb ▸ ha)

theorem getAll_foldl_add (f : String → String) (pl : List (String × String))
    (init : Values) (h : keysNodup init) (k : String) :
    Values.getAll (pl.foldl (fun a kv => Values.add a (f kv.1) kv.2) init) k =
      Values.getAll init k ++
        ((pl.filter (fun kv => f kv.1 = k)).map Prod.snd) := by
  induction pl generalizing init with
  | nil => simp
  | cons kv rest ih =>
    simp only [List.foldl_cons]
    rw [ih (Values.add init (f kv.1) kv.2) (keysNodup_add h _ _),
        getAll_add h (f kv.1) kv.2 k]
    by_cases hk : f kv.1 = k
    · simp [List.filter_cons, hk]
    · have : ¬ (k = f kv.1) := fun hh => hk hh.symm
      simp [List.filter_cons, hk, this]

theorem keysNodup_foldl_add (f : String → String) (pl : List (String × String))
    (init : Values) (h : keysNodup init) :
    keysNodup (pl.foldl (fun a kv => Values.add a (f kv.1) kv.2) init) := by
  induction pl generalizing init with
  | nil => exact h
  | cons kv rest ih => exact ih _ (keysNodup_add h _ _)

theorem filter_map_pair_key (k1 k : String) (l : List String) :
    ((l.map (fun v => (k1, v))).filter (fun kv => kv.1 = k)).map Prod.snd =
      if k1 = k then l else [] := by
  by_cases h : k1 = k
  · subst h
    induction l with
    | nil => simp
    | cons v vt ih => simp [List.filter_cons, ih]
  · induction l with
    | nil => simp [h]
    | cons v vt ih => simp [List.filter_cons, h, ih]

theorem getAll_eq_pairs_filter (vs : Values) (k : String) :
    Values.getAll vs k =
      ((Values.pairs vs).filter (fun kv => kv.1 = k)).map Prod.snd := by
  induction vs with
  | nil => rfl
  | cons p ps ih =>
    rw [getAll_cons, ih]
    simp only [Values.pairs, List.flatMap_cons, List.filter_append, List.map_append]
    rw [filter_map_pair_key]

theorem getAll_addPairs (f : String → String) {dst : Values} (src : Values)
    (h : keysNodup dst) (k : String) :
    Values.getAll (Values.addPairs f dst src) k =
      Values.getAll dst k ++
        (((Values.pairs src).filter (fun kv => f kv.1 = k)).map Prod.snd) := by
  unfold Values.addPairs
  exact getAll_foldl_add f (Values.pairs src) dst h k

theorem getAll_mergeAdd {dst : Values} (src : Values) (h : keysNodup dst) (k : String) :
    Values.getAll (Values.mergeAdd dst src) k =
      Values.getAll dst k ++ Values.getAll src k := by
  unfold Values.mergeAdd
  rw [getAll_addPairs _ _ h, getAll_eq_pairs_filter src k]

theorem keysNodup_mergeAdd {dst : Values} (src : Values) (h : keysNodup dst) :
    keysNodup (Values.mergeAdd dst src) := by
  unfold Values.mergeAdd Values.addPairs
  exact keysNodup_foldl_add (fun k => k) (Values.pairs src) dst h

theorem insertSorted_perm (p : String × List String) (l : Values) :
    List.Perm (insertSorted p l) (p :: l) := by
  induction l with
  | nil => exact List.Perm.refl _
  | cons q qs ih =>
    rw [insertSorted]
    by_cases hle : p.1 ≤ q.1
    · rw [if_pos hle]
    · rw [if_neg hle]
      exact List.Perm.trans (List.Perm.cons q ih) (List.Perm.swap p q qs)

theorem sortByKey_perm (vs : Values) : List.Perm (sortByKey vs) vs := by
  induction vs with
  | nil => exact List.Perm.refl _
  | cons p ps ih =>
    have : sortByKey (p :: ps) = insertSorted p (sortByKey ps) := rfl
    rw [this]
    exact List.Perm.trans (insertSorted_perm p (sortByKey ps)) (List.Perm.cons p ih)

theorem mem_of_mem_getAll {vs : Values} {k v : String}
    (h : v ∈ Values.getAll vs k) : ∃ l, (k, l) ∈ vs ∧ v ∈ l := by
  unfold Values.getAll at h
  rcases List.mem_flatMap.mp h with ⟨p, hp, hv⟩
  rcases List.mem_filter.mp hp with ⟨hmem, hkey⟩
  refine ⟨p.2, ?_, hv⟩
  have : p.1 = k := by simpa using hkey
  rw [← this]
  exact hmem

theorem mem_encodePieces {vs : Values} {k v : String}
    (h : v ∈ Values.getAll vs k) :
    (queryEscape k ++ "=" ++ queryEscape v) ∈ Values.encodePieces vs := by
  rcases mem_of_mem_getAll h with ⟨l, hl, hv⟩
  have hmem : (k, l) ∈ sortByKey vs := ((sortByKey_perm vs).mem_iff).mpr hl
  unfold Values.encodePieces
  exact List.mem_flatMap.mpr ⟨(k, l), hmem, List.mem_map.mpr ⟨v, hv, rfl⟩⟩

/-! ## Lemmas about header-key canonicalization -/

theorem toNat_ofNat_valid (n : Nat) (h : Nat.isValidChar n) : (Char.ofNat n).toNat = n := by
  simp [Char.ofNat, h, Char.ofNatAux, Char.toNat, UInt32.toNat]

theorem isLowerChar_bounds {c : Char} (h : isLowerChar c = true) :
    97 ≤ c.toNat ∧ c.toNat ≤ 122 := by
  simpa [isLowerChar, Bool.and_eq_true, decide_eq_true_eq] using h

theorem isUpperChar_bounds {c : Char} (h : isUpperChar c = true) :
    65 ≤ c.toNat ∧ c.toNat ≤ 90 := by
  simpa [isUpperChar, Bool.and_eq_true, decide_eq_true_eq] using h

theorem toNat_toUpperChar {c : Char} (h : isLowerChar c = true) :
    (toUpperChar c).toNat = c.toNat - 32 := by
  have hb := isLowerChar_bounds h
  unfold toUpperChar
  rw [if_pos h, toNat_ofNat_valid _ (Or.inl (by omega))]

theorem toNat_toLowerChar {c : Char} (h : isUpperChar c = true) :
    (toLowerChar c).toNat = c.toNat + 32 := by
  have hb := isUpperChar_bounds h
  unfold toLowerChar
  rw [if_pos h, toNat_ofNat_valid _ (Or.inl (by omega))]

theorem toUpperChar_of_not_lower {c : Char} (h : isLowerChar c = false) :
    toUpperChar c = c := by
  unfold toUpperChar
  rw [h]
  rfl

theorem toLowerChar_of_not_upper {c : Char} (h : isUpperChar c = false) :
    toLowerChar c = c := by
  unfold toLowerChar
  rw [h]
  rfl

theorem isLowerChar_toUpperChar (c : Char) : isLowerChar (toUpperChar c) = false := by
  by_cases h : isLowerChar c = true
  · have hb := isLowerChar_bounds h
    have ht := toNat_toUpperChar h
    simp only [isLowerChar, ht, Bool.and_eq_true, decide_eq_true_eq,
      Bool.and_eq_false_iff, decide_eq_false_iff_not]
    omega
  · rw [toUpperChar_of_not_lower (by simpa using h)]
    simpa using h

theorem isUpperChar_toLowerChar (c : Char) : isUpperChar (toLowerChar c) = false := by
  by_cases h : isUpperChar c = true
  · have hb := isUpperChar_bounds h
    have ht := toNat_toLowerChar h
    simp only [isUpperChar, ht, Bool.and_eq_true, decide_eq_true_eq,
      Bool.and_eq_false_iff, decide_eq_false_iff_not]
    omega
  · rw [toLowerChar_of_not_upper (by simpa using h)]
    simpa using h

theorem toUpperChar_idem (c : Char) : toUpperChar (toUpperChar c) = toUpperChar c :=
  toUpperChar_of_not_lower (isLowerChar_toUpperChar c)

theorem toLowerChar_idem (c : Char) : toLowerChar (toLowerChar c) = toLowerChar c :=
  toLowerChar_of_not_upper (isUpperChar_toLowerChar c)

theorem canonChars_cons (b : Bool) (c : Char) (cs : List Char) :
    canonChars b (c :: cs) =
      (if b then toUpperChar c else toLowerChar c) ::
        canonChars ((if b then toUpperChar c else toLowerChar c) = '-') cs := rfl

theorem canonChars_idem (l : List Char) : ∀ b, canonChars b (canonChars b l) = canonChars b l := by
  induction l with
  | nil => intro b; rfl
  | cons c cs ih =>
    intro b
    rw [canonChars_cons, canonChars_cons]
    cases b
    · simp only [Bool.false_eq_true, if_false, toLowerChar_idem, ih]
    · simp only [if_true, toUpperChar_idem, ih]

theorem validHeaderFieldChar_toUpperChar {c : Char} (h : validHeaderFieldChar c = true) :
    validHeaderFieldChar (toUpperChar c) = true := by
  by_cases hl : isLowerChar c = true
  · have hb := isLowerChar_bounds hl
    have ht := toNat_toUpperChar hl
    have hup : isUpperChar (toUpperChar c) = true := by
      simp only [isUpperChar, ht, Bool.and_eq_true, decide_eq_true_eq]
      omega
    simp [validHeaderFieldChar, isAlphaNumChar, isAlphaChar, hup]
  · rw [toUpperChar_of_not_lower (by simpa using hl)]
    exact h

theorem validHeaderFieldChar_toLowerChar {c : Char} (h : validHeaderFieldChar c = true) :
    validHeaderFieldChar (toLowerChar c) = true := by
  by_cases hu : isUpperChar c = true
  · have hb := isUpperChar_bounds hu
    have ht := toNat_toLowerChar hu
    have hlo : isLowerChar (toLowerChar c) = true := by
      simp only [isLowerChar, ht, Bool.and_eq_true, decide_eq_true_eq]
      omega
    simp [validHeaderFieldChar, isAlphaNumChar, isAlphaChar, hlo]
  · rw [toLowerChar_of_not_upper (by simpa using hu)]
    exact h

theorem canonChars_all_valid {l : List Char}
    (h : l.all validHeaderFieldChar = true) (b : Bool) :
    (canonChars b l).all validHeaderFieldChar = true := by
  induction l generalizing b with
  | nil => rfl
  | cons c cs ih =>
    simp only [List.all_cons, Bool.and_eq_true] at h
    rw [canonChars_cons]
    simp only [List.all_cons, Bool.and_eq_true]
    refine ⟨?_, ih h.2 _⟩
    cases b
    · simpa using validHeaderFieldChar_toLowerChar h.1
    · simpa using validHeaderFieldChar_toUpperChar h.1

theorem canonicalMIMEHeaderKey_idem (s : String) :
    canonicalMIMEHeaderKey (canonicalMIMEHeaderKey s) = canonicalMIMEHeaderKey s := by
  unfold canonicalMIMEHeaderKey
  by_cases h : s.data.all validHeaderFieldChar = true
  · rw [if_pos h]
    have hv : (String.mk (canonChars true s.data)).data.all validHeaderFieldChar = true :=
      canonChars_all_valid h true
    rw [if_pos hv]
    show String.mk (canonChars true (canonChars true s.data)) = _
    rw [canonChars_idem]
  · rw [if_neg h, if_neg h]

/-! ## Lemmas about the redirect counter -/

theorem redirectRun_succ (budget : Int) (n : Nat) :
    redirectRun budget (n + 1) =
      if budget ≤ 0 then (0, some SubmitError.tooManyRedirects)
      else ((redirectRun (budget - 1) n).1 + 1, (redirectRun (budget - 1) n).2) := rfl

theorem redirectRun_exact (N : Nat) : (redirectRun (N : Int) N).2 = none := by
  induction N with
  | zero => rfl
  | succ n ih =>
    rw [redirectRun_succ, if_neg (by omega)]
    have hc : ((n + 1 : Nat) : Int) - 1 = (n : Int) := by push_cast; ring
    rw [hc]
    exact ih

theorem redirectRun_over (N : Nat) :
    redirectRun (N : Int) (N + 1) = (N, some SubmitError.tooManyRedirects) := by
  induction N with
  | zero => rfl
  | succ n ih =>
    rw [redirectRun_succ, if_neg (by omega)]
    have hc : ((n + 1 : Nat) : Int) - 1 = (n : Int) := by push_cast; ring
    rw [hc, ih]

/-! ## Claim theorems -/

/-- C2: the effective redirect budget is the per-request override if
present, else the profile default; a response chain of exactly `N`
redirect hops passes the `CheckRedirect` closure without error, a chain
of `N + 1` hops fails the submission with `TooManyRedirects` after `N`
hops, and with budget `0` every chain containing a redirect fails
immediately with zero hops taken. -/
theorem c2_redirect_budget (c : httpClient) (r : httpRequest) (N : Nat)
    (h : effectiveMaxRedirects c r = (N : Int)) :
    (redirectRun (effectiveMaxRedirects c r) N).2 = none ∧
    redirectRun (effectiveMaxRedirects c r) (N + 1) = (N, some SubmitError.tooManyRedirects) ∧
    (N = 0 → ∀ hops : Nat,
      redirectRun (effectiveMaxRedirects c r) (hops + 1) = (0, some SubmitError.tooManyRedirects)) := by
  rw [h]
  refine ⟨redirectRun_exact N, redirectRun_over N, ?_⟩
  intro hN hops
  subst hN
  rw [redirectRun_succ, if_pos (by omega)]

/-- Witness for C2 at budget 3 (request override 3 over profile default 10). -/
theorem c2_redirect_budget_witness :
    (redirectRun (effectiveMaxRedirects { maxRedirects := 10 } { maxRedirects := some 3 }) 3).2 = none ∧
    redirectRun (effectiveMaxRedirects { maxRedirects := 10 } { maxRedirects := some 3 }) (3 + 1) =
      (3, some SubmitError.tooManyRedirects) ∧
    (3 = 0 → ∀ hops : Nat,
      redirectRun (effectiveMaxRedirects { maxRedirects := 10 } { maxRedirects := some 3 }) (hops + 1) =
        (0, some SubmitError.tooManyRedirects)) :=
  c2_redirect_budget { maxRedirects := 10 } { maxRedirects := some 3 } 3 (by decide)

/-- C7: `IsJsonResponse` holds exactly when the case-insensitive
`content-type` lookup yields the exact literal `application/json`, and
`ParseJson` fails with the `NotJson` condition whenever that check
fails, for every decoder (so the body is never decoded). -/
theorem c7_is_json_exact {α : Type} (r : httpResponse) (decode : List Nat → Except String α) :
    (r.IsJsonResponse = true ↔ r.GetHeader "content-type" = some "application/json") ∧
    (r.IsJsonResponse = false → r.ParseJson decode = Except.error RespError.notJson) := by
  constructor
  · unfold httpResponse.IsJsonResponse
    cases h : r.GetHeader "content-type" with
    | none => simp
    | some v => simp
  · intro h
    unfold httpResponse.ParseJson
    rw [h]
    rfl

/-- Witness for C7: `application/json; charset=utf-8` is not recognized
and `ParseJson` fails with `NotJson` without decoding. -/
theorem c7_is_json_exact_witness :
    httpResponse.ParseJson
      { statusCode := 200, body := [123, 125],
        headers := [("content-type", ["application/json; charset=utf-8"])] }
      (fun _ => Except.ok (0 : Nat)) = Except.error RespError.notJson :=
  (c7_is_json_exact _ _).2 (by decide)

/-- C8 counterexample: a nil destination with an empty body yields the
nil-destination condition, not `EmptyBody`, so "for every destination
target, a zero-length body returns EmptyBody" fails at a nil target. -/
theorem c8_counterexample :
    httpResponse.ParseAs
      { statusCode := 200, body := [],
        headers := [("content-type", ["application/json"])] }
      { isNil := true, isPtr := true, isUnmarshaler := true }
      (fun _ => Except.ok (0 : Nat)) = Except.error RespError.nilDest ∧
    RespError.nilDest ≠ RespError.emptyBody := by
  exact ⟨rfl, by decide⟩

/-- C8 (amended): for every non-nil destination, `ParseAs` on a
zero-length body returns the `EmptyBody` condition regardless of the
content type and of the destination's shape, and the five failure
conditions (nil target, empty body, non-pointer target, non-JSON
content type, missing decode capability) are pairwise distinct. -/
theorem c8_empty_body {α : Type} (r : httpResponse) (d : Dest)
    (decode : List Nat → Except String α)
    (hn : d.isNil = false) (hb : r.body = []) :
    r.ParseAs d decode = Except.error RespError.emptyBody ∧
    [RespError.nilDest, RespError.emptyBody, RespError.notPointer,
      RespError.notJson, RespError.notUnmarshaler].Nodup := by
  refine ⟨?_, by decide⟩
  unfold httpResponse.ParseAs
  rw [hn, hb]
  rfl

/-- Witness for C8 at a non-JSON, non-pointer destination with empty body. -/
theorem c8_empty_body_witness :
    httpResponse.ParseAs
      { statusCode := 200, body := [], headers := [("content-type", ["text/plain"])] }
      { isNil := false, isPtr := false, isUnmarshaler := false }
      (fun _ => Except.ok (0 : Nat)) = Except.error RespError.emptyBody ∧
    [RespError.nilDest, RespError.emptyBody, RespError.notPointer,
      RespError.notJson, RespError.notUnmarshaler].Nodup :=
  c8_empty_body _ _ _ (by decide) (by decide)

/-- C5 counterexample: `example.com` parses (with empty scheme and empty
authority), so `GetHost` emits the partially-filled form `://` rather
than the empty string. -/
theorem c5_counterexample :
    httpClient.GetHost { host := "example.com" } = "://" ∧
    (urlParse "example.com").map (fun u => (u.scheme, u.host)) = Except.ok ("", "") ∧
    "://" ≠ "" := by
  refine ⟨rfl, rfl, by decide⟩

/-- C5 (amended): `GetHost` returns `scheme://host` whenever the stored
host parses (even when the parsed scheme and authority are empty,
yielding partially-filled forms such as `://`), returns the empty string
on a parse error with no error raised, and returns the empty string
exactly for the hosts that fail to parse. -/
theorem c5_host_normalization (c : httpClient) :
    (∀ e, urlParse c.host = Except.error e → c.GetHost = "") ∧
    (∀ u, urlParse c.host = Except.ok u → c.GetHost = u.scheme ++ "://" ++ u.host) ∧
    (c.GetHost = "" ↔ ∃ e, urlParse c.host = Except.error e) := by
  refine ⟨?_, ?_, ?_⟩
  · intro e he
    unfold httpClient.GetHost
    rw [he]
  · intro u hu
    unfold httpClient.GetHost
    rw [hu]
  · constructor
    · intro hempty
      unfold httpClient.GetHost at hempty
      cases hp : urlParse c.host with
      | error e => exact ⟨e, rfl⟩
      | ok u =>
        rw [hp] at hempty
        have hd := congrArg String.data hempty
        rw [String.data_append, String.data_append] at hd
        simp at hd
    · rintro ⟨e, he⟩
      unfold httpClient.GetHost
      rw [he]

/-- Witness for C5: a host beginning with `:` fails to parse and the
getter silently yields the empty string. -/
theorem c5_host_normalization_witness :
    httpClient.GetHost { host := "://" } = "" :=
  (c5_host_normalization { host := "://" }).1 "missing protocol scheme" (by decide)

/-- C10: the code violates the no-shared-mutable-state invariant.  With a
profile default query `a=2` and a composer path `p?a=1`, the first
`Submit` produces the query string `a=1&a=2` and — because `queries :=
r.queries` aliases the composer's map — writes the merged set back into
the composer, so the second `Submit` from the same composer state
produces `a=1&a=2&a=1&a=2`: path-derived and default queries are
accumulated across submissions. -/
theorem c10_submit_mutates_composer :
    (Submit { host := "https://api.example.com", defaultQueries := [("a", ["2"])] }
        { method := "GET", path := "p?a=1" }).map (fun p => p.1.url) =
      Except.ok "https://api.example.com/p?a=1&a=2" ∧
    ((Submit { host := "https://api.example.com", defaultQueries := [("a", ["2"])] }
        { method := "GET", path := "p?a=1" }).bind
      (fun p => Submit { host := "https://api.example.com", defaultQueries := [("a", ["2"])] } p.2)).map
        (fun p => p.1.url) =
      Except.ok "https://api.example.com/p?a=1&a=2&a=1&a=2" ∧
    (Submit { host := "https://api.example.com", defaultQueries := [("a", ["2"])] }
        { method := "GET", path := "p?a=1" }).map (fun p => p.2.queries) ≠
      Except.ok ({ method := "GET", path := "p?a=1" } : httpRequest).queries := by
  refine ⟨rfl, rfl, by decide⟩

/-- When the stored path is non-empty and parses to a reference carrying
its own authority, `submitResolve` discards the profile host and yields
the reference's `scheme://host`, the re-prefixed path and the merged
query set. -/
theorem submitResolve_abs (c : httpClient) (r : httpRequest) (u : GoURL)
    (hp : r.path ≠ "") (hu : urlParse (trimPfxSlash r.path) = Except.ok u)
    (hh : u.host ≠ "") :
    submitResolve c r =
      Except.ok (u.scheme ++ "://" ++ u.host, "/" ++ u.path, Values.mergeAdd r.queries u.query) := by
  unfold submitResolve
  rw [if_neg hp, hu]
  simp [hh]

/-- Witness-side helper for `submitResolve_abs` with an empty-authority
reference: the profile host is kept. -/
theorem submitResolve_rel (c : httpClient) (r : httpRequest) (u : GoURL)
    (hp : r.path ≠ "") (hu : urlParse (trimPfxSlash r.path) = Except.ok u)
    (hh : u.host = "") :
    submitResolve c r =
      Except.ok (c.GetHost, "/" ++ u.path, Values.mergeAdd r.queries u.query) := by
  unfold submitResolve
  rw [if_neg hp, hu]
  simp [hh]

/-- C1 counterexample: with profile host `https://api.example.com` and
url-prefix `v1`, the absolute-URL path `https://other.example/resource?x=1`
resolves to `https://other.example/v1//resource?x=1` — the profile's
prefix `/v1` is still applied (dropping the prefix changes the URL), so
the claim that the prefix is not applied fails. -/
theorem c1_counterexample :
    submitUrl { host := "https://api.example.com", urlPfx := "v1" }
        { method := "GET", path := "https://other.example/resource?x=1" } =
      Except.ok "https://other.example/v1//resource?x=1" ∧
    submitUrl { host := "https://api.example.com", urlPfx := "" }
        { method := "GET", path := "https://other.example/resource?x=1" } =
      Except.ok "https://other.example//resource?x=1" := by
  exact ⟨rfl, rfl⟩

/-- C1 (amended): when the path argument is itself an absolute URL (its
parsed reference carries an authority), the resolved target uses the
reference's `scheme://host` — the final URL is independent of the
profile's host — and the reference's query parameters are additively
merged with the profile's default queries; but the profile's url-prefix
IS still applied, between the overriding host and the resolved path. -/
theorem c1_absolute_url_override (c : httpClient) (r : httpRequest) (u : GoURL)
    (hp : r.path ≠ "") (hu : urlParse (trimPfxSlash r.path) = Except.ok u)
    (hh : u.host ≠ "") (hnd : keysNodup r.queries) :
    (∀ h' : String, submitUrl { c with host := h' } r = submitUrl c r) ∧
    (∃ q : Values,
      submitQueries c r = Except.ok q ∧
      submitUrl c r = Except.ok ((u.scheme ++ "://" ++ u.host) ++ c.GetUrlPfx ++ ("/" ++ u.path) ++
        (if q.length > 0 then "?" ++ Values.encode q else "")) ∧
      (∀ k, Values.getAll q k = Values.getAll r.queries k ++ Values.getAll u.query k ++
        (if r.skipDefaultQueries then [] else Values.getAll c.defaultQueries k))) := by
  constructor
  · intro h'
    unfold submitUrl Submit
    rw [submitResolve_abs c r u hp hu hh, submitResolve_abs { c with host := h' } r u hp hu hh]
    rfl
  · refine ⟨if r.skipDefaultQueries then Values.mergeAdd r.queries u.query
        else Values.mergeAdd (Values.mergeAdd r.queries u.query) c.defaultQueries, ?_, ?_, ?_⟩
    · unfold submitQueries
      rw [submitResolve_abs c r u hp hu hh]
      rfl
    · unfold submitUrl Submit
      rw [submitResolve_abs c r u hp hu hh]
      rfl
    · intro k
      have hnd2 : keysNodup (Values.mergeAdd r.queries u.query) :=
        keysNodup_mergeAdd u.query hnd
      by_cases hs : r.skipDefaultQueries
      · rw [if_pos hs, if_pos hs, getAll_mergeAdd u.query hnd k, List.append_nil]
      · rw [if_neg hs, if_neg hs, getAll_mergeAdd c.defaultQueries hnd2 k,
            getAll_mergeAdd u.query hnd k]

/-- Witness for C1 (amended) at the counterexample configuration, with a
colliding default query `x=0`. -/
theorem c1_absolute_url_override_witness :
    (∀ h' : String, submitUrl { cW1 with host := h' } rW1 = submitUrl cW1 rW1) ∧
    (∃ q : Values,
      submitQueries cW1 rW1 = Except.ok q ∧
      submitUrl cW1 rW1 = Except.ok ((uW1.scheme ++ "://" ++ uW1.host) ++ cW1.GetUrlPfx ++ ("/" ++ uW1.path) ++
        (if q.length > 0 then "?" ++ Values.encode q else "")) ∧
      (∀ k, Values.getAll q k = Values.getAll rW1.queries k ++ Values.getAll uW1.query k ++
        (if rW1.skipDefaultQueries then [] else Values.getAll cW1.defaultQueries k))) :=
  c1_absolute_url_override cW1 rW1 uW1 (by decide) (by decide) (by decide) (by decide)

/-- C3: for a non-empty stored path whose parse succeeds, the resolved
path component is `/` followed by the reference's path portion (one
slash is prepended unconditionally; a reference with an empty path
yields the bare `/`); an empty stored path resolves to the empty path
component. -/
theorem c3_resolved_path (c : httpClient) (r : httpRequest) :
    (r.path = "" → (submitResolve c r).map (fun t => t.2.1) = Except.ok "") ∧
    (∀ u, r.path ≠ "" → urlParse (trimPfxSlash r.path) = Except.ok u →
      (submitResolve c r).map (fun t => t.2.1) = Except.ok ("/" ++ u.path)) ∧
    (∀ u, r.path ≠ "" → urlParse (trimPfxSlash r.path) = Except.ok u → u.path = "" →
      (submitResolve c r).map (fun t => t.2.1) = Except.ok "/") := by
  refine ⟨?_, ?_, ?_⟩
  · intro hp
    unfold submitResolve
    rw [if_pos hp]
    rfl
  · intro u hp hu
    unfold submitResolve
    rw [if_neg hp, hu]
    rfl
  · intro u hp hu hpath
    unfold submitResolve
    rw [if_neg hp, hu]
    simp only [hpath]
    rfl

/-- Witness for C3: the absolute-URL path's reference path `/resource`
already starts with a slash, and the resolved component is still
`/` + `/resource` = `//resource`. -/
theorem c3_resolved_path_witness :
    (submitResolve cW3 rW3).map (fun t => t.2.1) = Except.ok ("/" ++ uW3.path) ∧
    ("/" ++ uW3.path) = "//resource" :=
  ⟨(c3_resolved_path cW3 rW3).2.1 uW3 (by decide) (by decide), by decide⟩

/-- C4: with the skip-default-queries flag unset, the final query set of a
submission is the resolve-phase set (the request's own queries with the
path-derived queries appended per key) additively extended with every
default query value — per key, path-supplied values come before the
default values and no value is replaced — and every stored value under
every key appears as an escaped `k=v` piece of the encoded query string
(`Encode` is the `&`-join of those pieces). -/
theorem c4_additive_query_merge (c : httpClient) (r : httpRequest)
    (t : String × String × Values)
    (hskip : r.skipDefaultQueries = false) (hnd : keysNodup r.queries)
    (hres : submitResolve c r = Except.ok t) :
    ∃ q, submitQueries c r = Except.ok q ∧
      (∀ k, Values.getAll q k = Values.getAll t.2.2 k ++ Values.getAll c.defaultQueries k) ∧
      (∀ k v, v ∈ Values.getAll q k →
        (queryEscape k ++ "=" ++ queryEscape v) ∈ Values.encodePieces q) ∧
      Values.encode q = String.intercalate "&" (Values.encodePieces q) := by
  have hndt : keysNodup t.2.2 := by
    unfold submitResolve at hres
    by_cases hp : r.path = ""
    · rw [if_pos hp] at hres
      simp only [Except.ok.injEq] at hres
      rw [← hres]
      exact hnd
    · rw [if_neg hp] at hres
      cases hu : urlParse (trimPfxSlash r.path) with
      | error e => rw [hu] at hres; exact absurd hres (by simp)
      | ok u =>
        rw [hu] at hres
        simp only [Except.ok.injEq] at hres
        rw [← hres]
        exact keysNodup_mergeAdd u.query hnd
  refine ⟨Values.mergeAdd t.2.2 c.defaultQueries, ?_, ?_, ?_, ?_⟩
  · unfold submitQueries
    rw [hres, hskip]
    rfl
  · intro k
    exact getAll_mergeAdd c.defaultQueries hndt k
  · intro k v hv
    exact mem_encodePieces hv
  · rfl

theorem pair_mem_pairs {vs : Values} {k v : String} (h : v ∈ Values.getAll vs k) :
    (k, v) ∈ Values.pairs vs := by
  rcases mem_of_mem_getAll h with ⟨l, hl, hv⟩
  exact List.mem_flatMap.mpr ⟨(k, l), hl, List.mem_map.mpr ⟨v, hv, rfl⟩⟩

theorem uaApplied_skip (c : httpClient) (r : httpRequest) :
    (uaApplied c r).skipDefaultHeaders = r.skipDefaultHeaders := by
  unfold uaApplied httpRequest.AddHeader
  cases r.userAgent with
  | some ua => rfl
  | none => by_cases h : c.userAgent = "" <;> simp [h]

theorem keysNodup_uaApplied (c : httpClient) (r : httpRequest) (h : keysNodup r.headers) :
    keysNodup (uaApplied c r).headers := by
  unfold uaApplied httpRequest.AddHeader headerAdd
  cases r.userAgent with
  | some ua => exact keysNodup_add h _ _
  | none =>
    by_cases hc : c.userAgent = ""
    · rw [if_neg (by simp [hc])]
      exact h
    · rw [if_pos hc]
      exact keysNodup_add h _ _

/-- Witness for C4 at the colliding key `a`: path query `a=1`, default
query `a=2`. -/
theorem c4_additive_query_merge_witness :
    ∃ q, submitQueries cW4 rW4 = Except.ok q ∧
      (∀ k, Values.getAll q k =
        Values.getAll tW4.2.2 k ++ Values.getAll cW4.defaultQueries k) ∧
      (∀ k v, v ∈ Values.getAll q k →
        (queryEscape k ++ "=" ++ queryEscape v) ∈ Values.encodePieces q) ∧
      Values.encode q = String.intercalate "&" (Values.encodePieces q) :=
  c4_additive_query_merge cW4 rW4 tW4 (by decide) (by decide) (by decide)

/-- C9: with the skip-default-headers flag set, the outgoing call's
headers are exactly the canonicalized copy of the request's own working
headers (after user-agent resolution) — no profile default header pair
is added; with the flag unset, the default headers are additively merged
(per canonical key, the request's values come first and every default
value is appended, none replaced) and every default header value reaches
the outgoing call under its canonicalized key. -/
theorem c9_skip_default_headers (c : httpClient) (r : httpRequest)
    (hnd : keysNodup r.headers) :
    (r.skipDefaultHeaders = true →
      outgoingHeaders c r = applyHeaders (uaApplied c r).headers) ∧
    (r.skipDefaultHeaders = false → ∀ k,
      Values.getAll (mergedHeaders c (uaApplied c r)) k =
        Values.getAll (uaApplied c r).headers k ++
          ((Values.pairs c.defaultHeaders).filter
            (fun kv => canonicalMIMEHeaderKey kv.1 = k)).map Prod.snd) ∧
    (r.skipDefaultHeaders = false → ∀ k v, v ∈ Values.getAll c.defaultHeaders k →
      v ∈ Values.getAll (outgoingHeaders c r) (canonicalMIMEHeaderKey k)) := by
  have hnd1 : keysNodup (uaApplied c r).headers := keysNodup_uaApplied c r hnd
  have hmerged : r.skipDefaultHeaders = false → ∀ k,
      Values.getAll (mergedHeaders c (uaApplied c r)) k =
        Values.getAll (uaApplied c r).headers k ++
          ((Values.pairs c.defaultHeaders).filter
            (fun kv => canonicalMIMEHeaderKey kv.1 = k)).map Prod.snd := by
    intro hs k
    unfold mergedHeaders
    rw [uaApplied_skip, hs]
    simp only [Bool.false_eq_true, if_false]
    unfold headerMergeAdd
    exact getAll_addPairs canonicalMIMEHeaderKey c.defaultHeaders hnd1 k
  refine ⟨?_, hmerged, ?_⟩
  · intro hs
    unfold outgoingHeaders mergedHeaders
    rw [uaApplied_skip, hs]
    rfl
  · intro hs k v hv
    have hM : v ∈ Values.getAll (mergedHeaders c (uaApplied c r)) (canonicalMIMEHeaderKey k) := by
      rw [hmerged hs (canonicalMIMEHeaderKey k)]
      refine List.mem_append.mpr (Or.inr ?_)
      refine List.mem_map.mpr ⟨(k, v), ?_, rfl⟩
      exact List.mem_filter.mpr ⟨pair_mem_pairs hv, by simp⟩
    unfold outgoingHeaders applyHeaders
    rw [getAll_addPairs canonicalMIMEHeaderKey (mergedHeaders c (uaApplied c r))
      (by unfold keysNodup; simp) (canonicalMIMEHeaderKey k)]
    refine List.mem_append.mpr (Or.inr ?_)
    refine List.mem_map.mpr ⟨(canonicalMIMEHeaderKey k, v), ?_, rfl⟩
    exact List.mem_filter.mpr ⟨pair_mem_pairs hM, by simp [canonicalMIMEHeaderKey_idem]⟩

/-- Witness for C9 with defaults `x-key: secret` and `X-Two: a, b` and a
request-supplied header `X-Mine: 1`. -/
theorem c9_skip_default_headers_witness :
    (rW9.skipDefaultHeaders = true →
      outgoingHeaders cW9 rW9 = applyHeaders (uaApplied cW9 rW9).headers) ∧
    (rW9.skipDefaultHeaders = false → ∀ k,
      Values.getAll (mergedHeaders cW9 (uaApplied cW9 rW9)) k =
        Values.getAll (uaApplied cW9 rW9).headers k ++
          ((Values.pairs cW9.defaultHeaders).filter
            (fun kv => canonicalMIMEHeaderKey kv.1 = k)).map Prod.snd) ∧
    (rW9.skipDefaultHeaders = false → ∀ k v, v ∈ Values.getAll cW9.defaultHeaders k →
      v ∈ Values.getAll (outgoingHeaders cW9 rW9) (canonicalMIMEHeaderKey k)) :=
  c9_skip_default_headers cW9 rW9 (by decide)

/-! ## Lemmas for the host-normalization round trip (claim C6) -/

theorem ne_of_toNat_ne {c d : Char} (h : c.toNat ≠ d.toNat) : c ≠ d :=
  fun hh => h (hh ▸ rfl)

theorem cutChar_not_mem {l : List Char} {sep : Char} (h : sep ∉ l) :
    cutChar l sep = (l, [], false) := by
  induction l with
  | nil => rfl
  | cons c cs ih =>
    simp only [List.mem_cons] at h
    push_neg at h
    unfold cutChar
    rw [if_neg (fun hh => h.1 hh.symm), ih h.2]

theorem lastSplit_not_mem {l : List Char} {sep : Char} (h : sep ∉ l) :
    lastSplit l sep = none := by
  unfold lastSplit
  rw [cutChar_not_mem (by simpa using h)]
  rfl

theorem splitAuthority_not_mem {l : List Char} (h : '/' ∉ l) :
    splitAuthority l = (l, []) := by
  unfold splitAuthority
  rw [cutChar_not_mem h]
  rfl

theorem schemeLoop_cons (acc : List Char) (c : Char) (cs : List Char) :
    schemeLoop acc (c :: cs) =
      if isAlphaChar c then schemeLoop (acc ++ [c]) cs
      else if isDigitChar c || c = '+' || c = '-' || c = '.' then
        if acc = [] then .ok none else schemeLoop (acc ++ [c]) cs
      else if c = ':' then
        if acc = [] then .error "missing protocol scheme" else .ok (some (acc, cs))
      else .ok none := rfl

theorem schemeLoop_alpha (s rest : List Char)
    (ha : ∀ c ∈ s, isAlphaChar c = true) :
    ∀ acc, acc ++ s ≠ [] →
      schemeLoop acc (s ++ ':' :: rest) = Except.ok (some (acc ++ s, rest)) := by
  induction s with
  | nil =>
    intro acc hne
    simp only [List.append_nil] at hne ⊢
    rw [List.nil_append, schemeLoop_cons,
        if_neg (by decide), if_neg (by decide), if_pos rfl, if_neg hne]
  | cons c cs ih =>
    intro acc hne
    have hc := ha c (by simp)
    rw [List.cons_append, schemeLoop_cons, if_pos hc,
        ih (fun x hx => ha x (by simp [hx])) (acc ++ [c]) (by simp)]
    simp

theorem getScheme_alpha {s rest : List Char} (hs : s ≠ [])
    (ha : ∀ c ∈ s, isAlphaChar c = true) :
    getScheme (s ++ ':' :: rest) = Except.ok (s, rest) := by
  unfold getScheme
  rw [schemeLoop_alpha s rest ha [] (by simpa using hs)]
  simp

theorem forceQuerySplit_of_not_mem {l : List Char} (h : '?' ∉ l) :
    forceQuerySplit l = false := by
  unfold forceQuerySplit
  cases hrev : l.reverse with
  | nil => simp
  | cons c t =>
    have hc : c ∈ l := by
      rw [← List.mem_reverse, hrev]
      simp
    have hcq : ¬(c = '?') := fun hh => h (hh ▸ hc)
    simp [hcq]

theorem plain_toNat {c : Char} (h : plainHostChar c = true) :
    (45 ≤ c.toNat ∧ c.toNat ≤ 57 ∧ c.toNat ≠ 47) ∨
      (65 ≤ c.toNat ∧ c.toNat ≤ 90) ∨ (97 ≤ c.toNat ∧ c.toNat ≤ 122) := by
  simp only [plainHostChar, isAlphaNumChar, isAlphaChar, isLowerChar, isUpperChar, isDigitChar,
    Bool.or_eq_true, Bool.and_eq_true, decide_eq_true_eq, Nat.beq_eq_true_eq] at h
  omega

theorem plain_char_ne {c : Char} (h : plainHostChar c = true) {n : Nat}
    (hn : n < 45 ∨ n = 47 ∨ n = 58 ∨ (57 < n ∧ n < 65) ∨ (90 < n ∧ n < 97) ∨ 122 < n) :
    c.toNat ≠ n := by
  rcases plain_toNat h with h1 | h1 | h1 <;> omega

theorem plain_not_mem {hst : List Char} (hha : ∀ c ∈ hst, plainHostChar c = true)
    (χ : Char)
    (hχ : χ.toNat < 45 ∨ χ.toNat = 47 ∨ χ.toNat = 58 ∨ (57 < χ.toNat ∧ χ.toNat < 65) ∨
      (90 < χ.toNat ∧ χ.toNat < 97) ∨ 122 < χ.toNat) :
    χ ∉ hst :=
  fun hm => plain_char_ne (hha χ hm) hχ rfl

theorem validHostChar_of_plain {c : Char} (h : plainHostChar c = true) :
    validHostChar c = true := by
  simp only [plainHostChar, Bool.or_eq_true, Nat.beq_eq_true_eq] at h
  simp only [validHostChar, Bool.or_eq_true]
  rcases h with (h | h) | h
  · exact Or.inl (Or.inr h)
  · refine Or.inr ?_
    rw [h]
    decide
  · refine Or.inr ?_
    rw [h]
    decide

theorem unescapeHost_valid {l : List Char}
    (h : ∀ c ∈ l, validHostChar c = true ∧ c ≠ '%') :
    unescapeHost l = Except.ok l := by
  induction l with
  | nil => rfl
  | cons c cs ih =>
    obtain ⟨hv, hp⟩ := h c (by simp)
    unfold unescapeHost
    rw [if_neg hp, if_neg (by simp [hv]), ih (fun x hx => h x (by simp [hx]))]
    rfl

theorem parseHost_plain {hst : List Char} (hh : hst ≠ [])
    (hha : ∀ c ∈ hst, plainHostChar c = true) :
    parseHost hst = Except.ok (String.mk hst) := by
  have h91 : startsWithL hst ['['] = false := by
    cases hst with
    | nil => exact absurd rfl hh
    | cons c t =>
      have hne : ¬(c = '[') :=
        ne_of_toNat_ne (plain_char_ne (hha c (by simp)) (by decide))
      simp [startsWithL, hne]
  have h58 : ':' ∉ hst := plain_not_mem hha ':' (by decide)
  unfold parseHost
  rw [if_neg (by simp [h91]), lastSplit_not_mem h58,
      unescapeHost_valid (fun c hc =>
        ⟨validHostChar_of_plain (hha c hc),
         ne_of_toNat_ne (plain_char_ne (hha c hc) (by decide))⟩)]
  rfl

theorem not_upper_of_lower {c : Char} (h : isLowerChar c = true) : isUpperChar c = false := by
  have hb := isLowerChar_bounds h
  simp only [isUpperChar, Bool.and_eq_false_iff, decide_eq_false_iff_not]
  omega

theorem map_toLowerChar_id {s : List Char} (h : ∀ c ∈ s, isLowerChar c = true) :
    s.map toLowerChar = s := by
  induction s with
  | nil => rfl
  | cons c cs ih =>
    rw [List.map_cons, toLowerChar_of_not_upper (not_upper_of_lower (h c (by simp))),
        ih (fun x hx => h x (by simp [hx]))]

theorem dropWhile_eq_self_of_all {p : Char → Bool} {l : List Char}
    (h : ∀ c ∈ l, p c = false) : l.dropWhile p = l := by
  cases l with
  | nil => rfl
  | cons c t =>
    rw [List.dropWhile_cons, h c (by simp)]
    simp

theorem trimSpaceStr_id {l : List Char} (h : ∀ c ∈ l, isSpaceChar c = false) :
    trimSpaceStr (String.mk l) = String.mk l := by
  unfold trimSpaceStr
  rw [show (String.mk l).data = l from rfl, dropWhile_eq_self_of_all h,
      dropWhile_eq_self_of_all (fun c hc => h c (List.mem_reverse.mp hc)),
      List.reverse_reverse]

theorem urlParse_canonical (s hst : List Char)
    (hs : s ≠ []) (hsa : ∀ c ∈ s, isLowerChar c = true)
    (hh : hst ≠ []) (hha : ∀ c ∈ hst, plainHostChar c = true) :
    urlParse (String.mk (s ++ ':' :: '/' :: '/' :: hst)) =
      Except.ok { scheme := String.mk s, opq := "", host := String.mk hst,
                  path := "", rawQuery := "" } := by
  have halpha : ∀ c ∈ s, isAlphaChar c = true := fun c hc => by
    simp [isAlphaChar, hsa c hc]
  have hmemcase : ∀ c ∈ s ++ ':' :: '/' :: '/' :: hst,
      (97 ≤ c.toNat ∧ c.toNat ≤ 122) ∨ c.toNat = 58 ∨ c.toNat = 47 ∨ plainHostChar c = true := by
    intro c hc
    rcases List.mem_append.mp hc with h1 | h1
    · exact Or.inl (isLowerChar_bounds (hsa c h1))
    · rcases List.mem_cons.mp h1 with h2 | h2
      · exact Or.inr (Or.inl (by rw [h2]; rfl))
      · rcases List.mem_cons.mp h2 with h3 | h3
        · exact Or.inr (Or.inr (Or.inl (by rw [h3]; rfl)))
        · rcases List.mem_cons.mp h3 with h4 | h4
          · exact Or.inr (Or.inr (Or.inl (by rw [h4]; rfl)))
          · exact Or.inr (Or.inr (Or.inr (hha c h4)))
  have hn35 : '#' ∉ s ++ ':' :: '/' :: '/' :: hst := by
    intro hm
    rcases hmemcase _ hm with h | h | h | h
    · exact absurd h (by decide)
    · exact absurd h (by decide)
    · exact absurd h (by decide)
    · exact absurd h (by decide)
  have hn63 : '?' ∉ ('/' :: '/' :: hst) := by
    intro hm
    rcases List.mem_cons.mp hm with h | h
    · exact absurd h (by decide)
    · rcases List.mem_cons.mp h with h2 | h2
      · exact absurd h2 (by decide)
      · exact plain_not_mem hha '?' (by decide) h2
  have hctl : containsCTL (s ++ ':' :: '/' :: '/' :: hst) = false := by
    unfold containsCTL
    rw [List.any_eq_false]
    intro c hc
    have hfacts : 45 ≤ c.toNat ∧ c.toNat ≤ 122 := by
      rcases hmemcase c hc with h | h | h | h
      · omega
      · omega
      · omega
      · rcases plain_toNat h with h1 | h1 | h1 <;> omega
    simp only [Bool.or_eq_true, decide_eq_true_eq, not_or]
    omega
  have hslash : '/' ∉ hst := plain_not_mem hha '/' (by decide)
  have hat : '@' ∉ hst := plain_not_mem hha '@' (by decide)
  have hpa : parseAuthority hst = Except.ok (String.mk hst) := by
    unfold parseAuthority
    rw [lastSplit_not_mem hat, parseHost_plain hh hha]
  have hfirst : startsWithL hst ['/'] = false := by
    cases hst with
    | nil => exact absurd rfl hh
    | cons c t =>
      have hne : ¬(c = '/') :=
        ne_of_toNat_ne (plain_char_ne (hha c (by simp)) (by decide))
      simp [startsWithL, hne]
  unfold urlParse
  rw [show (String.mk (s ++ ':' :: '/' :: '/' :: hst)).data
        = s ++ ':' :: '/' :: '/' :: hst from rfl,
      cutChar_not_mem hn35]
  show urlParseList (s ++ ':' :: '/' :: '/' :: hst) = _
  unfold urlParseList
  rw [if_neg (by simp [hctl]), getScheme_alpha hs halpha]
  simp only [map_toLowerChar_id hsa, forceQuerySplit_of_not_mem hn63, Bool.false_eq_true,
    if_false, cutChar_not_mem hn63, startsWithL, List.drop_succ_cons, List.drop_zero,
    splitAuthority_not_mem hslash, hpa, hfirst]
  simp only [Bool.and_true, Bool.and_false, Bool.or_true, Bool.true_and, Bool.false_and,
    Bool.not_true, Bool.not_false, decide_True, Bool.or_false, if_true, if_false]
  rfl

theorem isSpaceChar_false_of_ge {c : Char} (h : 45 ≤ c.toNat) : isSpaceChar c = false := by
  cases hb : isSpaceChar c
  · rfl
  · exfalso
    have hmem : c.toNat ∈ [9, 10, 11, 12, 13, 32] := by
      simpa [isSpaceChar] using hb
    simp only [List.mem_cons, List.not_mem_nil, or_false] at hmem
    omega

theorem canonical_chars {s hst : List Char}
    (hsa : ∀ c ∈ s, isLowerChar c = true) (hha : ∀ c ∈ hst, plainHostChar c = true) :
    ∀ c ∈ s ++ ':' :: '/' :: '/' :: hst, 45 ≤ c.toNat ∧ c.toNat ≤ 122 := by
  intro c hc
  rcases List.mem_append.mp hc with h1 | h1
  · have := isLowerChar_bounds (hsa c h1)
    omega
  · rcases List.mem_cons.mp h1 with h2 | h2
    · rw [h2]; decide
    · rcases List.mem_cons.mp h2 with h3 | h3
      · rw [h3]; decide
      · rcases List.mem_cons.mp h3 with h4 | h4
        · rw [h4]; decide
        · rcases plain_toNat (hha c h4) with h5 | h5 | h5 <;> omega

/-- Normalizing a host already in the canonical `scheme://host` shape
(lowercase alphabetic scheme, plain DNS host) returns it unchanged. -/
theorem normalize_canonical (s hst : List Char)
    (hs : s ≠ []) (hsa : ∀ c ∈ s, isLowerChar c = true)
    (hh : hst ≠ []) (hha : ∀ c ∈ hst, plainHostChar c = true) (c0 : httpClient) :
    httpClient.GetHost (httpClient.Host c0 (String.mk (s ++ ':' :: '/' :: '/' :: hst))) =
      String.mk (s ++ ':' :: '/' :: '/' :: hst) := by
  have hspace : ∀ c ∈ s ++ ':' :: '/' :: '/' :: hst, isSpaceChar c = false :=
    fun c hc => isSpaceChar_false_of_ge (canonical_chars hsa hha c hc).1
  unfold httpClient.Host
  rw [trimSpaceStr_id hspace]
  unfold httpClient.GetHost
  show (match urlParse (String.mk (s ++ ':' :: '/' :: '/' :: hst)) with
    | Except.error _ => ""
    | Except.ok u => u.scheme ++ "://" ++ u.host) = _
  rw [urlParse_canonical s hst hs hsa hh hha]
  show String.mk s ++ "://" ++ String.mk hst = _
  apply String.ext
  rw [String.data_append, String.data_append]
  show (s ++ [':', '/', '/']) ++ hst = s ++ ':' :: '/' :: '/' :: hst
  rw [List.append_assoc]
  rfl

/-- C6 counterexample: normalizing the empty host yields `://`
(`url.Parse("")` succeeds with empty scheme and authority), but setting
the host to `://` and normalizing again yields `""` (a leading `:`
fails to parse) — so `normalize (normalize "") ≠ normalize ""` and
idempotence fails on the degenerate empty-string case the claim
includes. -/
theorem c6_counterexample :
    httpClient.GetHost { host := "" } = "://" ∧
    httpClient.GetHost (httpClient.Host { host := "" } (httpClient.GetHost { host := "" })) = "" ∧
    ("://" : String) ≠ "" :=
  ⟨rfl, rfl, by decide⟩

/-- C6 (amended): host normalization is idempotent on well-formed hosts —
for every host of the canonical shape `scheme://host` (non-empty
lowercase alphabetic scheme, non-empty host of letters, digits, `-`,
`.`), setting the host and reading it back returns the same string, and
hence re-normalizing a normalized value is a fixed point; it is NOT
idempotent on the degenerate empty or unparseable hosts (see the
counterexample), whose normal forms flip between `://` and the empty
string. -/
theorem c6_idempotent_wellformed (s hst : List Char)
    (hs : s ≠ []) (hsa : ∀ c ∈ s, isLowerChar c = true)
    (hh : hst ≠ []) (hha : ∀ c ∈ hst, plainHostChar c = true) :
    (∀ c0 : httpClient,
      httpClient.GetHost (httpClient.Host c0 (String.mk (s ++ ':' :: '/' :: '/' :: hst))) =
        String.mk (s ++ ':' :: '/' :: '/' :: hst)) ∧
    (∀ c0 c1 : httpClient,
      httpClient.GetHost (httpClient.Host c1
        (httpClient.GetHost (httpClient.Host c0 (String.mk (s ++ ':' :: '/' :: '/' :: hst))))) =
      httpClient.GetHost (httpClient.Host c0 (String.mk (s ++ ':' :: '/' :: '/' :: hst)))) := by
  have h1 := normalize_canonical s hst hs hsa hh hha
  refine ⟨h1, ?_⟩
  intro c0 c1
  rw [h1 c0, h1 c1]

/-- Witness for C6 (amended) at `https://api.example.com`. -/
theorem c6_idempotent_wellformed_witness :
    (∀ c0 : httpClient,
      httpClient.GetHost (httpClient.Host c0
        (String.mk ("https".data ++ ':' :: '/' :: '/' :: "api.example.com".data))) =
        String.mk ("https".data ++ ':' :: '/' :: '/' :: "api.example.com".data)) ∧
    (∀ c0 c1 : httpClient,
      httpClient.GetHost (httpClient.Host c1
        (httpClient.GetHost (httpClient.Host c0
          (String.mk ("https".data ++ ':' :: '/' :: '/' :: "api.example.com".data))))) =
      httpClient.GetHost (httpClient.Host c0
        (String.mk ("https".data ++ ':' :: '/' :: '/' :: "api.example.com".data)))) :=
  c6_idempotent_wellformed "https".data "api.example.com".data
    (by decide) (by decide) (by decide) (by decide)
